import Mathlib

/-
  Verification of the cryptoreporter data-acquisition pipeline.

  Shallow embedding of src/data_fetcher.py and src/config.py.
  Prices are modelled as exact rationals, timestamps as integers
  (seconds for query bounds, milliseconds for series points, as in the
  source). Absent values (Python None) are Option; a provider call that
  may raise is an Except value.
-/

namespace CryptoReporter

/-- Embedding of calculate_percentage (src/data_fetcher.py lines 7-14):
returns 0.0 when either operand is None or when old == 0, otherwise
((new - old) / old) * 100. -/
def calculate_percentage : Option ℚ → Option ℚ → ℚ
  | none, _ => 0
  | _, none => 0
  | some old, some new => if old = 0 then 0 else (new - old) / old * 100

theorem calculate_percentage_none_right (o : Option ℚ) :
    calculate_percentage o none = 0 := by
  cases o <;> rfl

/-- C1 counterexample: the code divides by the signed baseline, not by its
absolute value. At old = -50, new = -40 the code returns -20 while the
absolute-denominator formula of the claim gives 20. -/
theorem calculate_percentage_not_abs_denominator :
    calculate_percentage (some (-50)) (some (-40))
        ≠ ((-40 : ℚ) - (-50)) / |(-50 : ℚ)| * 100 ∧
    calculate_percentage (some (-50)) (some (-40)) = -20 := by
  constructor
  · simp only [calculate_percentage]
    norm_num
  · simp only [calculate_percentage]
    norm_num

/-- C1 (amended): for present operands with a nonzero baseline the
percentage engine returns (new - old) / old * 100 with the signed
denominator; hence percentChange(100, 110) = 10, percentChange(100, 90)
= -10 and percentChange(-50, -40) = -20. -/
theorem calculate_percentage_signed_formula :
    (∀ old new : ℚ, old ≠ 0 →
      calculate_percentage (some old) (some new) = (new - old) / old * 100) ∧
    calculate_percentage (some 100) (some 110) = 10 ∧
    calculate_percentage (some 100) (some 90) = -10 ∧
    calculate_percentage (some (-50)) (some (-40)) = -20 := by
  refine ⟨?_, ?_, ?_, ?_⟩
  · intro old new h
    simp [calculate_percentage, h]
  · simp only [calculate_percentage]; norm_num
  · simp only [calculate_percentage]; norm_num
  · simp only [calculate_percentage]; norm_num

/-- C1 witness: the amended formula evaluated at old = 4, new = 6. -/
theorem calculate_percentage_signed_formula_witness :
    (4 : ℚ) ≠ 0 ∧
    calculate_percentage (some 4) (some 6) = ((6 : ℚ) - 4) / 4 * 100 :=
  ⟨by norm_num, calculate_percentage_signed_formula.1 4 6 (by norm_num)⟩

/-- C8: the percentage engine is total over exact rationals and its
division is guarded: any absent operand or zero baseline yields exactly 0,
and a nonzero result can only arise from two present operands with a
nonzero baseline (the only case that reaches the division). -/
theorem calculate_percentage_guarded (o n : Option ℚ) :
    ((o = none ∨ n = none ∨ o = some 0) → calculate_percentage o n = 0) ∧
    (calculate_percentage o n ≠ 0 →
      ∃ old new, o = some old ∧ n = some new ∧ old ≠ 0) := by
  constructor
  · rintro (rfl | rfl | rfl)
    · cases n <;> rfl
    · exact calculate_percentage_none_right o
    · cases n with
      | none => rfl
      | some v => simp [calculate_percentage]
  · intro h
    cases o with
    | none => cases n <;> exact absurd rfl h
    | some old =>
      cases n with
      | none => exact absurd rfl h
      | some new =>
        refine ⟨old, new, rfl, rfl, ?_⟩
        intro h0
        exact h (by simp [calculate_percentage, h0])

/-- C8 witness: an absent baseline yields exactly 0. -/
theorem calculate_percentage_guarded_witness :
    calculate_percentage none (some 5) = 0 :=
  (calculate_percentage_guarded none (some 5)).1 (Or.inl rfl)

/-!  Historical resolver: fetch_coin_historical (src/data_fetcher.py lines
34-53).  The resolver queries the provider for the window
[target - 12h, target + 12h] (bounds in seconds), and on a non-empty
series picks the point minimising the absolute distance of its
millisecond timestamp to target * 1000, exactly like the Python
min(prices, key = lambda x: abs(x[0] - target_ts)) call, which keeps the
first element on ties.  The traced variant also records the list of
query windows issued to the provider. -/

/-- Embedding of the Python builtin min over a non-empty list with a key
function: folds left, replacing the accumulator only on a strictly
smaller key, hence ties keep the earlier element. -/
def minByFirst {α : Type} (f : α → ℤ) (x : α) (xs : List α) : α :=
  xs.foldl (fun acc y => if f y < f acc then y else acc) x

/-- The half-width of the narrow query window of fetch_coin_historical:
12 hours, in seconds. -/
def narrow_window : ℤ := 43200

/-- The selection key of fetch_coin_historical: absolute distance of a
point timestamp (milliseconds) to the target instant (milliseconds). -/
def nearestKey (target_ts : ℤ) (x : ℤ × ℚ) : ℤ :=
  |x.1 - target_ts|

/-- Embedding of fetch_coin_historical (src/data_fetcher.py lines 34-53),
instrumented with the list of provider query windows it issues.  The
target instant is given in seconds; query bounds are seconds and series
timestamps milliseconds, as in the source. -/
def fetch_coin_historical_traced (query : ℤ → ℤ → List (ℤ × ℚ))
    (target : ℤ) : List (ℤ × ℤ) × Option ℚ :=
  match query (target - narrow_window) (target + narrow_window) with
  | [] => ([(target - narrow_window, target + narrow_window)], none)
  | p :: ps =>
      ([(target - narrow_window, target + narrow_window)],
        some (minByFirst (nearestKey (target * 1000)) p ps).2)

theorem minByFirst_decomp {α : Type} (f : α → ℤ) :
    ∀ (xs : List α) (x : α),
      ∃ l1 l2, x :: xs = l1 ++ minByFirst f x xs :: l2 ∧
        (∀ q ∈ x :: xs, f (minByFirst f x xs) ≤ f q) ∧
        (∀ q ∈ l1, f (minByFirst f x xs) < f q) := by
  intro xs
  induction xs with
  | nil =>
    intro x
    exact ⟨[], [], rfl, by simp [minByFirst], by simp⟩
  | cons y ys ih =>
    intro x
    have hstep : minByFirst f x (y :: ys)
        = minByFirst f (if f y < f x then y else x) ys := rfl
    by_cases h : f y < f x
    · rw [hstep, if_pos h]
      obtain ⟨l1, l2, hdec, hmin, hstrict⟩ := ih y
      refine ⟨x :: l1, l2, ?_, ?_, ?_⟩
      · rw [List.cons_append, ← hdec]
      · intro q hq
        rcases List.mem_cons.mp hq with rfl | hq
        · have hy : f (minByFirst f y ys) ≤ f y := hmin y (List.mem_cons_self y ys)
          exact le_of_lt (lt_of_le_of_lt hy h)
        · exact hmin q hq
      · intro q hq
        rcases List.mem_cons.mp hq with rfl | hq
        · have hy : f (minByFirst f y ys) ≤ f y := hmin y (List.mem_cons_self y ys)
          exact lt_of_le_of_lt hy h
        · exact hstrict q hq
    · rw [hstep, if_neg h]
      have hxy : f x ≤ f y := le_of_not_lt h
      obtain ⟨l1, l2, hdec, hmin, hstrict⟩ := ih x
      cases l1 with
      | nil =>
        have hpair : x = minByFirst f x ys ∧ ys = l2 := by
          rw [List.nil_append] at hdec
          exact List.cons_eq_cons.mp hdec
        obtain ⟨hx, rfl⟩ := hpair
        refine ⟨[], y :: ys, ?_, ?_, ?_⟩
        · rw [List.nil_append, ← hx]
        · intro q hq
          rcases List.mem_cons.mp hq with rfl | hq
          · exact le_of_eq (congrArg f hx.symm)
          · rcases List.mem_cons.mp hq with rfl | hq
            · exact le_trans (le_of_eq (congrArg f hx.symm)) hxy
            · exact hmin q (List.mem_cons_of_mem x hq)
        · intro q hq
          simp at hq
      | cons a l1' =>
        have hpair : x = a ∧ ys = l1' ++ minByFirst f x ys :: l2 := by
          rw [List.cons_append] at hdec
          exact List.cons_eq_cons.mp hdec
        obtain ⟨hax, hys⟩ := hpair
        subst hax
        have hxl1 : f (minByFirst f x ys) < f x :=
          hstrict x (List.mem_cons_self x l1')
        refine ⟨x :: y :: l1', l2, ?_, ?_, ?_⟩
        · rw [List.cons_append, List.cons_append, ← hys]
        · intro q hq
          rcases List.mem_cons.mp hq with rfl | hq
          · exact le_of_lt hxl1
          · rcases List.mem_cons.mp hq with rfl | hq
            · exact le_trans (le_of_lt hxl1) hxy
            · exact hmin q (List.mem_cons_of_mem x hq)
        · intro q hq
          rcases List.mem_cons.mp hq with rfl | hq
          · exact hxl1
          · rcases List.mem_cons.mp hq with rfl | hq
            · exact lt_of_lt_of_le hxl1 hxy
            · exact hstrict q (List.mem_cons_of_mem x hq)

/-- C6: on a non-empty narrow-window series the resolver returns the
price of a point of the series whose timestamp has minimum absolute
distance to the target instant, and every point strictly before it in
encounter order has strictly larger distance (ties keep the earliest
point).  Second part: the spec example, a two-point series with prices 5
and 7 and a target instant just after the second timestamp, selects the
price 7 at the second timestamp. -/
theorem nearest_timestamp_selection :
    (∀ (query : ℤ → ℤ → List (ℤ × ℚ)) (target : ℤ) (p : ℤ × ℚ)
        (ps : List (ℤ × ℚ)),
      query (target - narrow_window) (target + narrow_window) = p :: ps →
      ∃ l1 l2 c, p :: ps = l1 ++ c :: l2 ∧
        (fetch_coin_historical_traced query target).2 = some c.2 ∧
        (∀ q ∈ p :: ps, nearestKey (target * 1000) c
            ≤ nearestKey (target * 1000) q) ∧
        (∀ q ∈ l1, nearestKey (target * 1000) c
            < nearestKey (target * 1000) q)) ∧
    (∀ t0 t1 : ℤ, t0 < t1 →
      (minByFirst (nearestKey (t1 + 1000)) (t0, (5 : ℚ)) [(t1, 7)]).2 = 7) := by
  constructor
  · intro query target p ps hq
    obtain ⟨l1, l2, hdec, hmin, hstrict⟩ :=
      minByFirst_decomp (nearestKey (target * 1000)) ps p
    refine ⟨l1, l2, minByFirst (nearestKey (target * 1000)) p ps,
      hdec, ?_, hmin, hstrict⟩
    simp [fetch_coin_historical_traced, hq]
  · intro t0 t1 h
    have hkey : nearestKey (t1 + 1000) (t1, (7 : ℚ))
        < nearestKey (t1 + 1000) (t0, (5 : ℚ)) := by
      simp only [nearestKey]
      have h1 : |t1 - (t1 + 1000)| = 1000 := by
        rw [abs_of_neg (by omega)]; omega
      have h2 : |t0 - (t1 + 1000)| = t1 + 1000 - t0 := by
        rw [abs_of_neg (by omega)]; omega
      omega
    simp [minByFirst, hkey]

/-- C6 witness: a concrete two-point series with the target just after
the second timestamp selects the second price. -/
theorem nearest_timestamp_selection_witness :
    (minByFirst (nearestKey ((1 : ℤ) + 1000)) ((0 : ℤ), (5 : ℚ)) [(1, 7)]).2
      = 7 :=
  nearest_timestamp_selection.2 0 1 (by decide)

/-- A provider that returns no points for the narrow 24-hour-wide window
but would return the point (0, 42) for any strictly wider window, such
as the one-calendar-day widened window of the claim. -/
def wideOnlyProvider : ℤ → ℤ → List (ℤ × ℚ) :=
  fun lo hi => if hi - lo ≤ 2 * narrow_window then [] else [(0, 42)]

/-- C2 counterexample: with wideOnlyProvider the narrow window is empty
and a one-calendar-day widened window would be non-empty, yet the
resolver issues exactly one query in total (so no widened query at all)
and reports unavailable. -/
theorem narrow_empty_no_widened_query :
    wideOnlyProvider (0 - narrow_window) (0 + narrow_window) = [] ∧
    wideOnlyProvider (0 - 86400) (0 + 86400) = [(0, 42)] ∧
    (fetch_coin_historical_traced wideOnlyProvider 0).1.length = 1 ∧
    (fetch_coin_historical_traced wideOnlyProvider 0).2 = none := by
  refine ⟨by decide, by decide, rfl, rfl⟩

/-- C2 (amended): the resolver issues exactly one provider query per
resolution, over the narrow 12-hour-half-width window; if that query
returns an empty series it reports unavailable immediately, with no
widened fallback query. -/
theorem fetch_coin_historical_single_query
    (query : ℤ → ℤ → List (ℤ × ℚ)) (target : ℤ) :
    (fetch_coin_historical_traced query target).1
        = [(target - narrow_window, target + narrow_window)] ∧
    (query (target - narrow_window) (target + narrow_window) = [] →
      (fetch_coin_historical_traced query target).2 = none) := by
  constructor
  · cases hq : query (target - narrow_window) (target + narrow_window) <;>
      simp [fetch_coin_historical_traced, hq]
  · intro hq
    simp [fetch_coin_historical_traced, hq]

/-- C2 witness: the always-empty provider makes the resolver report
unavailable after its single narrow-window query. -/
theorem fetch_coin_historical_single_query_witness :
    (fetch_coin_historical_traced (fun _ _ => []) 0).2 = none :=
  (fetch_coin_historical_single_query (fun _ _ => []) 0).2 rfl

/-!  YTD resolvers.  get_coin_ytd_price (src/data_fetcher.py lines 17-31)
reads history.get("prices", [[None, None]])[0][1]: when the prices key
is missing the default makes the price None; when the series is empty
the index raises and the handler returns None; otherwise the FIRST point
of the series is taken, with no check of its date.  The input models the
value of the prices key: none when the key is absent, some series when
present.  get_ytd_reference_price (lines 68-86) filters the frame to
index >= start and takes the first Close, returning None when the frame
or the filtered frame is empty. -/

/-- Embedding of get_coin_ytd_price: the price of the first returned
point, if any, regardless of its timestamp. -/
def get_coin_ytd_price : Option (List (ℤ × ℚ)) → Option ℚ
  | none => none
  | some [] => none
  | some (p :: _) => some p.2

/-- Embedding of get_ytd_reference_price: first Close of the frame rows
with index on or after the anchor. -/
def get_ytd_reference_price (df : List (ℤ × ℚ)) (start : ℤ) : Option ℚ :=
  if df.isEmpty then none
  else
    match df.filter (fun p => decide (start ≤ p.1)) with
    | [] => none
    | p :: _ => some p.2

/-- Modelled from the spec: first-on-or-after selection, the price of
the first point of the series whose date is on or after the anchor,
unavailable when there is no such point. -/
def ytdFirstOnOrAfter (series : List (ℤ × ℚ)) (anchor : ℤ) : Option ℚ :=
  (series.find? (fun p => decide (anchor ≤ p.1))).map Prod.snd

theorem find_eq_filter_head {α : Type} (p : α → Bool) :
    ∀ l : List α, l.find? p = (l.filter p).head? := by
  intro l
  induction l with
  | nil => rfl
  | cons a t ih =>
    cases hpa : p a with
    | true =>
      rw [List.find?_cons_of_pos _ hpa, List.filter_cons_of_pos hpa,
        List.head?_cons]
    | false =>
      have hpa2 : ¬ p a = true := by simp [hpa]
      rw [List.find?_cons_of_neg _ hpa2, List.filter_cons_of_neg hpa2, ih]

/-- C7 counterexample: a series whose only point is one hour before the
anchor.  The crypto YTD resolver returns that price, while
first-on-or-after selection has no eligible point and returns
unavailable; so the resolver does not implement first-on-or-after
selection. -/
theorem coin_ytd_ignores_anchor :
    get_coin_ytd_price (some [((-3600 : ℤ), (99 : ℚ))]) = some 99 ∧
    ytdFirstOnOrAfter [((-3600 : ℤ), (99 : ℚ))] 0 = none ∧
    get_coin_ytd_price (some [((-3600 : ℤ), (99 : ℚ))])
      ≠ ytdFirstOnOrAfter [((-3600 : ℤ), (99 : ℚ))] 0 := by
  refine ⟨rfl, rfl, by decide⟩

/-- C7 (amended): the equity YTD resolver implements first-on-or-after
selection exactly; the crypto YTD resolver returns the price of the
first point of the series regardless of its date (unavailable on a
missing or empty series), which agrees with first-on-or-after selection
whenever every returned point is on or after the anchor. -/
theorem ytd_resolvers_selection :
    (∀ (df : List (ℤ × ℚ)) (start : ℤ),
      get_ytd_reference_price df start = ytdFirstOnOrAfter df start) ∧
    (∀ (series : List (ℤ × ℚ)) (anchor : ℤ),
      (∀ q ∈ series, anchor ≤ q.1) →
      get_coin_ytd_price (some series) = ytdFirstOnOrAfter series anchor) ∧
    get_coin_ytd_price none = none := by
  refine ⟨?_, ?_, rfl⟩
  · intro df start
    cases df with
    | nil => rfl
    | cons a t =>
      rw [get_ytd_reference_price, ytdFirstOnOrAfter,
        find_eq_filter_head]
      simp only [List.isEmpty_cons, if_neg]
      cases h : (a :: t).filter (fun p => decide (start ≤ p.1)) with
      | nil => simp [h]
      | cons b s => simp [h]
  · intro series anchor h
    cases series with
    | nil => rfl
    | cons a t =>
      have ha : anchor ≤ a.1 := h a (List.mem_cons_self a t)
      simp [get_coin_ytd_price, ytdFirstOnOrAfter, List.find?_cons, ha]

/-- C7 witness: on a series entirely on or after the anchor the crypto
resolver agrees with first-on-or-after selection. -/
theorem ytd_resolvers_selection_witness :
    get_coin_ytd_price (some [((5 : ℤ), (10 : ℚ))])
      = ytdFirstOnOrAfter [((5 : ℤ), (10 : ℚ))] 3 :=
  ytd_resolvers_selection.2.1 [((5 : ℤ), (10 : ℚ))] 3 (by decide)

/-!  Current-price fetch: get_latest_price (src/data_fetcher.py lines
88-105) tries, in order, fast_info last_price, info regularMarketPrice,
and the last Close of a 7-day history, each exactly once, and returns
None when all three are unavailable.  The traced embedding records which
sources are consulted. -/

/-- The three data sources a ticker exposes to get_latest_price. -/
structure TickerSource where
  fast_last : Option ℚ
  info_price : Option ℚ
  hist_closes : List ℚ

/-- Embedding of get_latest_price, instrumented with the list of sources
consulted, in order. -/
def get_latest_price_traced (src : TickerSource) : List String × Option ℚ :=
  match src.fast_last with
  | some v => (["fast_info"], some v)
  | none =>
    match src.info_price with
    | some v => (["fast_info", "info"], some v)
    | none =>
      match src.hist_closes with
      | [] => (["fast_info", "info", "history"], none)
      | c :: cs => (["fast_info", "info", "history"],
          some ((c :: cs).getLast (List.cons_ne_nil c cs)))

/-- C9 counterexample: when every source fails, each source is consulted
exactly once — the same call is never attempted a second time — and the
result is None; so no retry wrapper with two to three attempts per call
exists around the fetch. -/
theorem latest_price_no_retry :
    (get_latest_price_traced
        { fast_last := none, info_price := none, hist_closes := [] }).1.count
        "fast_info" = 1 ∧
    (get_latest_price_traced
        { fast_last := none, info_price := none, hist_closes := [] }).1.count
        "info" = 1 ∧
    (get_latest_price_traced
        { fast_last := none, info_price := none, hist_closes := [] }).2
        = none := by
  refine ⟨by decide, by decide, rfl⟩

/-- C9 (amended): get_latest_price consults each of its three fallback
sources at most once, in the fixed order fast_info, info, history; it
returns None exactly when all three are unavailable, and any returned
price comes verbatim from one of the sources (nothing is fabricated).
No retry, delay or timeout layer exists. -/
theorem latest_price_fallback_chain (src : TickerSource) :
    (get_latest_price_traced src).1.Nodup ∧
    ((get_latest_price_traced src).2 = none →
      src.fast_last = none ∧ src.info_price = none ∧ src.hist_closes = []) ∧
    (∀ p, (get_latest_price_traced src).2 = some p →
      src.fast_last = some p ∨ src.info_price = some p ∨
        p ∈ src.hist_closes) := by
  obtain ⟨f, i, hc⟩ := src
  cases f with
  | some v =>
    refine ⟨(by decide : (["fast_info"] : List String).Nodup), ?_, ?_⟩
    · intro h; exact absurd h (by simp [get_latest_price_traced])
    · intro p hp
      left
      simpa [get_latest_price_traced] using hp
  | none =>
    cases i with
    | some v =>
      refine ⟨(by decide : (["fast_info", "info"] : List String).Nodup),
        ?_, ?_⟩
      · intro h; exact absurd h (by simp [get_latest_price_traced])
      · intro p hp
        right; left
        simpa [get_latest_price_traced] using hp
    | none =>
      cases hc with
      | nil =>
        refine ⟨(by decide :
          (["fast_info", "info", "history"] : List String).Nodup), ?_, ?_⟩
        · intro _; exact ⟨rfl, rfl, rfl⟩
        · intro p hp
          exact absurd hp (by simp [get_latest_price_traced])
      | cons c cs =>
        refine ⟨(by decide :
          (["fast_info", "info", "history"] : List String).Nodup), ?_, ?_⟩
        · intro h; exact absurd h (by simp [get_latest_price_traced])
        · intro p hp
          right; right
          have hv : (c :: cs).getLast (List.cons_ne_nil c cs) = p := by
            simpa [get_latest_price_traced] using hp
          rw [← hv]
          exact List.getLast_mem (List.cons_ne_nil c cs)

/-- A ticker whose fast_info source already answers. -/
def srcFastOnly : TickerSource :=
  { fast_last := some 7, info_price := none, hist_closes := [] }

/-- C9 witness: the price returned for srcFastOnly comes from one of its
sources. -/
theorem latest_price_fallback_chain_witness :
    srcFastOnly.fast_last = some 7 ∨ srcFastOnly.info_price = some 7 ∨
      (7 : ℚ) ∈ srcFastOnly.hist_closes :=
  (latest_price_fallback_chain srcFastOnly).2.2 7 rfl

/-!  Data validation: config.py REQUIRED_KEYS and validate_data (lines
39-48).  The dictionary argument is modelled by the list of its keys;
the raised ValueError is the error branch of an Except carrying the
formatted message. -/

/-- The ten required crypto keys of src/config.py. -/
def REQUIRED_KEYS : List String :=
  ["BTCZAR", "ETHZAR", "BNBZAR", "XRPZAR", "ADAZAR",
   "SOLZAR", "DOGEZAR", "DOTZAR", "TRXZAR", "LTCZAR"]

/-- Embedding of validate_data: collects the required keys missing from
the data, raises ValueError listing them when any are missing, returns
True otherwise. -/
def validate_data (data : List String) : Except String Bool :=
  match REQUIRED_KEYS.filter (fun k => !data.contains k) with
  | [] => Except.ok true
  | m :: ms =>
      Except.error ("Missing data keys: " ++ String.intercalate ", " (m :: ms))

/-- C10: validate_data returns True exactly when every required key is
present, raises exactly when some required key is missing, and the
raised message is built from the list of exactly the missing required
keys. -/
theorem validate_data_spec (data : List String) :
    (validate_data data = Except.ok true ↔ ∀ k ∈ REQUIRED_KEYS, k ∈ data) ∧
    ((∃ k ∈ REQUIRED_KEYS, k ∉ data) ↔
      ∃ msg, validate_data data = Except.error msg) ∧
    (∀ msg, validate_data data = Except.error msg →
      msg = "Missing data keys: " ++ String.intercalate ", "
          (REQUIRED_KEYS.filter (fun k => !data.contains k)) ∧
      ∀ k, k ∈ REQUIRED_KEYS.filter (fun j => !data.contains j) ↔
        (k ∈ REQUIRED_KEYS ∧ k ∉ data)) := by
  have hmem : ∀ k, k ∈ REQUIRED_KEYS.filter (fun j => !data.contains j) ↔
      (k ∈ REQUIRED_KEYS ∧ k ∉ data) := by
    intro k
    simp
  cases hf : REQUIRED_KEYS.filter (fun k => !data.contains k) with
  | nil =>
    have hv : validate_data data = Except.ok true := by
      unfold validate_data
      rw [hf]
    have hall : ∀ k ∈ REQUIRED_KEYS, k ∈ data := by
      intro k hk
      by_contra hkd
      have hkm : k ∈ REQUIRED_KEYS.filter (fun j => !data.contains j) :=
        (hmem k).mpr ⟨hk, hkd⟩
      rw [hf] at hkm
      simp at hkm
    refine ⟨?_, ?_, ?_⟩
    · rw [hv]
      exact ⟨fun _ => hall, fun _ => rfl⟩
    · constructor
      · rintro ⟨k, hk, hkd⟩
        exact absurd (hall k hk) hkd
      · rintro ⟨msg, hmsg⟩
        rw [hv] at hmsg
        exact absurd hmsg (by simp)
    · intro msg hmsg
      rw [hv] at hmsg
      exact absurd hmsg (by simp)
  | cons m ms =>
    have hv : validate_data data
        = Except.error ("Missing data keys: "
            ++ String.intercalate ", " (m :: ms)) := by
      unfold validate_data
      rw [hf]
    have hm : m ∈ REQUIRED_KEYS ∧ m ∉ data := by
      refine (hmem m).mp ?_
      rw [hf]
      exact List.mem_cons_self m ms
    refine ⟨?_, ?_, ?_⟩
    · rw [hv]
      constructor
      · intro h; exact absurd h (by simp)
      · intro hall
        exact absurd (hall m hm.1) hm.2
    · constructor
      · intro _
        exact ⟨_, hv⟩
      · intro _
        exact ⟨m, hm.1, hm.2⟩
    · intro msg hmsg
      rw [hv] at hmsg
      have hmsg2 : "Missing data keys: " ++ String.intercalate ", " (m :: ms)
          = msg := by
        injection hmsg
      refine ⟨hmsg2.symm, ?_⟩
      rw [← hf]
      exact hmem

/-- C10 witness: with every required key present, validation succeeds
and returns True. -/
theorem validate_data_spec_witness :
    validate_data REQUIRED_KEYS = Except.ok true :=
  (validate_data_spec REQUIRED_KEYS).1.mpr (fun _ hk => hk)

/-!  Aggregation cycle: fetch_market_data (src/data_fetcher.py lines
108-217).  The external world is a FetchEnv giving the outcome of every
helper call: get_latest_price per ticker, fetch_historical per ticker
and day count, get_ytd_reference_price per ticker, fetch_coin_historical
per coin id and day count, get_coin_ytd_price per coin id (the four
helpers catch their own exceptions and return None, modelled as Option
results), and the one batched cg.get_price call, which can raise
(Except; a raise is caught by the outer handler, which returns None).
The snapshot is the association list of instrument keys to metric
records, in insertion order; the timestamp string is not modelled.  The
JSE branch mirrors the Python truthiness test if price: a missing or
zero price leaves jse as None and the cycle returns None. -/

/-- The per-instrument metric record of the snapshot: Today price and
the three percentage fields. -/
structure Metrics where
  today : Option ℚ
  change : ℚ
  monthly : ℚ
  ytd : ℚ
deriving DecidableEq

/-- Outcomes of the helper calls fetch_market_data performs. -/
structure FetchEnv where
  latest : String → Option ℚ
  hist : String → ℕ → Option ℚ
  ytd_ref : String → Option ℚ
  coin_hist : String → ℕ → Option ℚ
  coin_ytd : String → Option ℚ
  cg_price : Except Unit (String → Option ℚ)

/-- One equity, FX or commodity entry: current price from
get_latest_price, percentages against the 1-day, 30-day and YTD
references. -/
def equityEntry (env : FetchEnv) (ticker : String) : Metrics :=
  { today := env.latest ticker
    change := calculate_percentage (env.hist ticker 1) (env.latest ticker)
    monthly := calculate_percentage (env.hist ticker 30) (env.latest ticker)
    ytd := calculate_percentage (env.ytd_ref ticker) (env.latest ticker) }

/-- The ten CoinGecko ids of the crypto basket. -/
def cryptoIds : List String :=
  ["bitcoin", "ethereum", "binancecoin", "ripple", "cardano",
   "solana", "dogecoin", "polkadot", "tron", "litecoin"]

/-- ASCII upper-casing of one character, the effect of Python upper on
the ASCII coin ids and symbols used here. -/
def upperChar (c : Char) : Char :=
  if 97 ≤ c.toNat ∧ c.toNat ≤ 122 then Char.ofNat (c.toNat - 32) else c

/-- ASCII upper-casing of a string, characterwise. -/
def upperAscii (s : String) : String :=
  String.mk (s.data.map upperChar)

/-- symbol_map.get(coin, coin).upper(): the display symbol of a coin id,
upper-cased, falling back to the id itself. -/
def symbolOf (coin : String) : String :=
  upperAscii (match coin with
    | "bitcoin" => "BTC"
    | "ethereum" => "ETH"
    | "binancecoin" => "BNB"
    | "ripple" => "XRP"
    | "cardano" => "ADA"
    | "solana" => "SOL"
    | "dogecoin" => "DOGE"
    | "polkadot" => "DOT"
    | "tron" => "TRX"
    | "litecoin" => "LTC"
    | c => c)

/-- The snapshot key of a coin: its symbol followed by ZAR. -/
def symbolZar (coin : String) : String :=
  symbolOf coin ++ "ZAR"

/-- One crypto entry: Today from the batched price map, percentages
against the per-coin 1-day, 30-day and YTD resolutions. -/
def cryptoEntry (env : FetchEnv) (prices : String → Option ℚ)
    (coin : String) : Metrics :=
  { today := prices coin
    change := calculate_percentage (env.coin_hist coin 1) (prices coin)
    monthly := calculate_percentage (env.coin_hist coin 30) (prices coin)
    ytd := calculate_percentage (env.coin_ytd coin) (prices coin) }

/-- The seven equity, FX, commodity and index entries of the snapshot,
keyed as in the source; jse is the already-gated JSE All-Share price. -/
def equitiesList (env : FetchEnv) (jse : ℚ) : List (String × Metrics) :=
  [("JSEALSHARE",
      { today := some jse
        change := calculate_percentage (env.hist "^J203.JO" 1) (some jse)
        monthly := calculate_percentage (env.hist "^J203.JO" 30) (some jse)
        ytd := calculate_percentage (env.ytd_ref "^J203.JO") (some jse) }),
   ("USDZAR", equityEntry env "ZAR=X"),
   ("EURZAR", equityEntry env "EURZAR=X"),
   ("GBPZAR", equityEntry env "GBPZAR=X"),
   ("BRENT", equityEntry env "BZ=F"),
   ("GOLD", equityEntry env "GC=F"),
   ("SP500", equityEntry env "^GSPC")]

/-- The ten crypto entries of the snapshot, in basket order. -/
def cryptoList (env : FetchEnv) (prices : String → Option ℚ) :
    List (String × Metrics) :=
  cryptoIds.map (fun coin => (symbolZar coin, cryptoEntry env prices coin))

/-- Embedding of fetch_market_data: None when the JSE All-Share price is
missing or zero (Python truthiness) or when the batched cg.get_price
call raises; otherwise the full snapshot. -/
def fetch_market_data (env : FetchEnv) : Option (List (String × Metrics)) :=
  match env.latest "^J203.JO" with
  | none => none
  | some p =>
    if p = 0 then none
    else
      match env.cg_price with
      | Except.error _ => none
      | Except.ok prices => some (equitiesList env p ++ cryptoList env prices)

/-- The seventeen instrument keys of a snapshot, in insertion order. -/
def configuredKeys : List String :=
  ["JSEALSHARE", "USDZAR", "EURZAR", "GBPZAR", "BRENT", "GOLD", "SP500"]
    ++ cryptoIds.map symbolZar

/-- Lookup of an instrument key in a snapshot, first match as in a
Python dict with these distinct keys. -/
def getMetrics (s : List (String × Metrics)) (k : String) : Option Metrics :=
  (s.find? (fun e => e.1 == k)).map Prod.snd

theorem fetch_market_data_some_iff (env : FetchEnv)
    (s : List (String × Metrics)) :
    fetch_market_data env = some s ↔
      ∃ p prices, env.latest "^J203.JO" = some p ∧ p ≠ 0 ∧
        env.cg_price = Except.ok prices ∧
        s = equitiesList env p ++ cryptoList env prices := by
  cases hj : env.latest "^J203.JO" with
  | none => simp [fetch_market_data, hj]
  | some p =>
    by_cases hp0 : p = 0
    · subst hp0
      simp [fetch_market_data, hj]
    · cases hcg : env.cg_price with
      | error e =>
        simp [fetch_market_data, hj, hcg, hp0]
      | ok prices =>
        simp only [fetch_market_data, hj, hcg, if_neg hp0,
          Option.some_inj, Except.ok.injEq]
        constructor
        · intro h
          exact ⟨p, prices, rfl, hp0, rfl, h.symm⟩
        · rintro ⟨p2, pr2, hp2, _, hpr2, hs⟩
          rw [hs, ← hp2, ← hpr2]

/-- C5 (amended): the cycle yields no snapshot exactly when the JSE
All-Share current price is unavailable or zero, or the batched crypto
current-price call raises; a failure of any other individual fetch never
aborts the cycle. -/
theorem fetch_market_data_abort_iff (env : FetchEnv) :
    fetch_market_data env = none ↔
      (env.latest "^J203.JO" = none ∨ env.latest "^J203.JO" = some 0 ∨
        env.cg_price = Except.error ()) := by
  cases hj : env.latest "^J203.JO" with
  | none => simp [fetch_market_data, hj]
  | some p =>
    by_cases hp0 : p = 0
    · subst hp0
      simp [fetch_market_data, hj]
    · cases hcg : env.cg_price with
      | error e =>
        cases e
        simp [fetch_market_data, hj, hcg, hp0]
      | ok prices =>
        simp [fetch_market_data, hj, hcg, hp0]

/-- An environment where every fetch succeeds except the JSE All-Share
current price. -/
def envJseDown : FetchEnv :=
  { latest := fun t => if t = "^J203.JO" then none else some 100
    hist := fun _ _ => some 90
    ytd_ref := fun _ => some 80
    coin_hist := fun _ _ => some 50
    coin_ytd := fun _ => some 40
    cg_price := Except.ok (fun _ => some 200) }

/-- C5 counterexample: the batched current-price call succeeds in
envJseDown, yet the cycle returns no snapshot, because the JSE All-Share
single-instrument fetch failed; so the batch failure is not the sole
single failure that aborts the cycle. -/
theorem jse_failure_aborts_cycle :
    fetch_market_data envJseDown = none ∧
    envJseDown.cg_price ≠ Except.error () := by
  constructor
  · rfl
  · intro h
    exact Except.noConfusion h

/-- An environment where current prices arrive, the batched price map
has no entry for bitcoin, and no historical or YTD reference is
available. -/
def envBtcMissing : FetchEnv :=
  { latest := fun _ => some 100
    hist := fun _ _ => none
    ytd_ref := fun _ => none
    coin_hist := fun _ _ => none
    coin_ytd := fun _ => none
    cg_price := Except.ok (fun c => if c = "bitcoin" then none else some 200) }

/-- C3 counterexample: in envBtcMissing the snapshot still carries a
BTCZAR entry, but its metrics are not zeroed: Today is absent (None),
not 0; and the snapshot carries only metric entries, no status value. -/
theorem failed_instrument_metrics_not_zeroed :
    (fetch_market_data envBtcMissing).map (fun s => getMetrics s "BTCZAR")
      = some (some { today := none, change := 0, monthly := 0, ytd := 0 }) ∧
    ({ today := none, change := 0, monthly := 0, ytd := 0 } : Metrics)
      ≠ { today := some 0, change := 0, monthly := 0, ytd := 0 } := by
  refine ⟨by decide, by decide⟩

theorem getMetrics_crypto (env : FetchEnv) (p : ℚ)
    (prices : String → Option ℚ) :
    ∀ c ∈ cryptoIds,
      getMetrics (equitiesList env p ++ cryptoList env prices) (symbolZar c)
        = some (cryptoEntry env prices c) := by
  intro c hc
  fin_cases hc <;> rfl

/-- C3 (amended): whenever the cycle returns a snapshot, its keys are
exactly the seventeen configured instrument keys, each exactly once and
in insertion order; a crypto instrument whose batched current price is
absent still gets its entry, with an absent Today and all percentage
fields 0; there is no separate per-instrument status map. -/
theorem snapshot_keys_complete (env : FetchEnv)
    (s : List (String × Metrics)) (h : fetch_market_data env = some s) :
    s.map Prod.fst = configuredKeys ∧ configuredKeys.Nodup ∧
    (∀ c ∈ cryptoIds, ∀ prices, env.cg_price = Except.ok prices →
      prices c = none →
      getMetrics s (symbolZar c)
        = some { today := none, change := 0, monthly := 0, ytd := 0 }) := by
  obtain ⟨p, prices, hj, hp0, hcg, hs⟩ :=
    (fetch_market_data_some_iff env s).mp h
  subst hs
  refine ⟨?_, by decide, ?_⟩
  · simp [equitiesList, cryptoList, configuredKeys]
  · intro c hc prices2 hcg2 hpc
    rw [hcg] at hcg2
    have hpp : prices = prices2 := by injection hcg2
    subst hpp
    rw [getMetrics_crypto env p prices c hc]
    simp [cryptoEntry, hpc, calculate_percentage_none_right]

/-- C3 witness: in envBtcMissing the snapshot keys are exactly the
configured instrument keys. -/
theorem snapshot_keys_complete_witness :
    ((fetch_market_data envBtcMissing).getD []).map Prod.fst
      = configuredKeys :=
  (snapshot_keys_complete envBtcMissing
    ((fetch_market_data envBtcMissing).getD []) (by decide)).1

theorem find_congr (kA k : String) (hk : k ≠ kA) :
    ∀ {l1 l2 : List (String × Metrics)},
      List.Forall₂ (fun a b => a.1 = b.1 ∧ (a.1 ≠ kA → a = b)) l1 l2 →
      l1.find? (fun e => e.1 == k) = l2.find? (fun e => e.1 == k) := by
  intro l1 l2 h
  induction h with
  | nil => rfl
  | @cons a b t1 t2 hab _ ih =>
    obtain ⟨hkey, hval⟩ := hab
    by_cases hek : a.1 = k
    · have hne : a.1 ≠ kA := by rw [hek]; exact hk
      have hab2 : a = b := hval hne
      subst hab2
      rw [List.find?_cons_of_pos _ (by simp [hek]),
        List.find?_cons_of_pos _ (by simp [hek])]
    · have hbk : ¬ b.1 = k := by rw [← hkey]; exact hek
      rw [List.find?_cons_of_neg _ (by simp [hek]),
        List.find?_cons_of_neg _ (by simp [hbk]), ih]

theorem forall₂_map_pair {α β : Type} (R : β → β → Prop) (f g : α → β) :
    ∀ l : List α, (∀ a ∈ l, R (f a) (g a)) →
      List.Forall₂ R (l.map f) (l.map g) := by
  intro l
  induction l with
  | nil => intro _; exact List.Forall₂.nil
  | cons a t ih =>
    intro h
    exact List.Forall₂.cons (h a (List.mem_cons_self a t))
      (ih (fun b hb => h b (List.mem_cons_of_mem a hb)))

/-- The provider identifier an instrument uses for its historical and
YTD resolutions: the yfinance ticker for the seven equity, FX, commodity
and index entries, the CoinGecko id for the ten crypto entries. -/
inductive InstrumentId where
  | equity (ticker : String)
  | coin (id : String)
deriving DecidableEq

/-- The seventeen configured instruments: snapshot key paired with the
identifier of its historical and YTD resolutions, in insertion order. -/
def configuredInstruments : List (String × InstrumentId) :=
  [("JSEALSHARE", InstrumentId.equity "^J203.JO"),
   ("USDZAR", InstrumentId.equity "ZAR=X"),
   ("EURZAR", InstrumentId.equity "EURZAR=X"),
   ("GBPZAR", InstrumentId.equity "GBPZAR=X"),
   ("BRENT", InstrumentId.equity "BZ=F"),
   ("GOLD", InstrumentId.equity "GC=F"),
   ("SP500", InstrumentId.equity "^GSPC")]
  ++ cryptoIds.map (fun c => (symbolZar c, InstrumentId.coin c))

/-- Two environments agree on every helper outcome feeding the entries
of the snapshot, except possibly the historical and YTD resolutions of
the one instrument iA: for an equity instrument its fetch_historical and
get_ytd_reference_price results, for a crypto instrument its
fetch_coin_historical and get_coin_ytd_price results. -/
def agreeExceptResolutions (env1 env2 : FetchEnv) : InstrumentId → Prop
  | InstrumentId.equity tA =>
      (∀ t, t ≠ tA → env1.hist t = env2.hist t) ∧
      (∀ t, t ≠ tA → env1.ytd_ref t = env2.ytd_ref t) ∧
      env1.coin_hist = env2.coin_hist ∧ env1.coin_ytd = env2.coin_ytd
  | InstrumentId.coin cA =>
      env1.hist = env2.hist ∧ env1.ytd_ref = env2.ytd_ref ∧
      (∀ c, c ≠ cA → env1.coin_hist c = env2.coin_hist c) ∧
      (∀ c, c ≠ cA → env1.coin_ytd c = env2.coin_ytd c)

theorem configured_id_inj :
    ∀ p ∈ configuredInstruments, ∀ q ∈ configuredInstruments,
      p.2 = q.2 → p.1 = q.1 := by
  decide

theorem equity_res_eq (env1 env2 : FetchEnv) (kA : String)
    (iA : InstrumentId) (hA : (kA, iA) ∈ configuredInstruments)
    (hres : agreeExceptResolutions env1 env2 iA)
    (k t : String) (hk : (k, InstrumentId.equity t) ∈ configuredInstruments)
    (hkA : k ≠ kA) :
    env1.hist t = env2.hist t ∧ env1.ytd_ref t = env2.ytd_ref t := by
  cases iA with
  | equity tA =>
    have htA : t ≠ tA := by
      intro hteq
      subst hteq
      exact hkA (configured_id_inj (k, InstrumentId.equity t) hk
        (kA, InstrumentId.equity t) hA rfl)
    exact ⟨hres.1 t htA, hres.2.1 t htA⟩
  | coin cA =>
    exact ⟨congrFun hres.1 t, congrFun hres.2.1 t⟩

theorem coin_res_eq (env1 env2 : FetchEnv) (kA : String)
    (iA : InstrumentId) (hA : (kA, iA) ∈ configuredInstruments)
    (hres : agreeExceptResolutions env1 env2 iA)
    (c : String) (hc : c ∈ cryptoIds) (hkA : symbolZar c ≠ kA) :
    env1.coin_hist c = env2.coin_hist c ∧
      env1.coin_ytd c = env2.coin_ytd c := by
  cases iA with
  | equity tA =>
    exact ⟨congrFun hres.2.2.1 c, congrFun hres.2.2.2 c⟩
  | coin cA =>
    have hcA : c ≠ cA := by
      intro hceq
      subst hceq
      have hmem : (symbolZar c, InstrumentId.coin c) ∈ configuredInstruments := by
        unfold configuredInstruments
        exact List.mem_append_right _ (List.mem_map.mpr ⟨c, hc, rfl⟩)
      exact hkA (configured_id_inj (symbolZar c, InstrumentId.coin c) hmem
        (kA, InstrumentId.coin c) hA rfl)
    exact ⟨hres.2.2.1 c hcA, hres.2.2.2 c hcA⟩

/-- C4: fault isolation over all seventeen configured instruments.  If
two environments agree on every helper outcome except the 1-day, 30-day
and YTD resolutions of one configured instrument A — equity or crypto —
(in particular when A fails in one of them, since the helpers catch
their own exceptions and surface None), and both cycles return
snapshots, then the entry of every other configured instrument B is
identical in the two snapshots. -/
theorem fetch_market_data_fault_isolation
    (env1 env2 : FetchEnv) (kA kB : String) (iA iB : InstrumentId)
    (hA : (kA, iA) ∈ configuredInstruments)
    (hB : (kB, iB) ∈ configuredInstruments)
    (hBA : kB ≠ kA)
    (hl : env1.latest = env2.latest)
    (hp : env1.cg_price = env2.cg_price)
    (hres : agreeExceptResolutions env1 env2 iA)
    (s1 s2 : List (String × Metrics))
    (h1 : fetch_market_data env1 = some s1)
    (h2 : fetch_market_data env2 = some s2) :
    getMetrics s1 kB = getMetrics s2 kB := by
  obtain ⟨p1, pr1, hj1, hp1, hcg1, hs1⟩ :=
    (fetch_market_data_some_iff env1 s1).mp h1
  obtain ⟨p2, pr2, hj2, hp2, hcg2, hs2⟩ :=
    (fetch_market_data_some_iff env2 s2).mp h2
  have hpp : p1 = p2 := by
    rw [hl, hj2] at hj1
    exact (Option.some_inj.mp hj1).symm
  have hprpr : pr1 = pr2 := by
    rw [hp, hcg2] at hcg1
    injection hcg1 with h
    exact h.symm
  subst hpp hprpr hs1 hs2
  unfold getMetrics
  refine congrArg (Option.map Prod.snd) (find_congr kA kB hBA ?_)
  refine List.rel_append ?_ ?_
  · unfold equitiesList
    refine List.Forall₂.cons ⟨rfl, fun hk => ?_⟩
      (List.Forall₂.cons ⟨rfl, fun hk => ?_⟩
      (List.Forall₂.cons ⟨rfl, fun hk => ?_⟩
      (List.Forall₂.cons ⟨rfl, fun hk => ?_⟩
      (List.Forall₂.cons ⟨rfl, fun hk => ?_⟩
      (List.Forall₂.cons ⟨rfl, fun hk => ?_⟩
      (List.Forall₂.cons ⟨rfl, fun hk => ?_⟩ List.Forall₂.nil))))))
    · obtain ⟨hh, hy⟩ := equity_res_eq env1 env2 kA iA hA hres
        "JSEALSHARE" "^J203.JO" (by decide) hk
      simp [hh, hy]
    · obtain ⟨hh, hy⟩ := equity_res_eq env1 env2 kA iA hA hres
        "USDZAR" "ZAR=X" (by decide) hk
      simp [equityEntry, hl, hh, hy]
    · obtain ⟨hh, hy⟩ := equity_res_eq env1 env2 kA iA hA hres
        "EURZAR" "EURZAR=X" (by decide) hk
      simp [equityEntry, hl, hh, hy]
    · obtain ⟨hh, hy⟩ := equity_res_eq env1 env2 kA iA hA hres
        "GBPZAR" "GBPZAR=X" (by decide) hk
      simp [equityEntry, hl, hh, hy]
    · obtain ⟨hh, hy⟩ := equity_res_eq env1 env2 kA iA hA hres
        "BRENT" "BZ=F" (by decide) hk
      simp [equityEntry, hl, hh, hy]
    · obtain ⟨hh, hy⟩ := equity_res_eq env1 env2 kA iA hA hres
        "GOLD" "GC=F" (by decide) hk
      simp [equityEntry, hl, hh, hy]
    · obtain ⟨hh, hy⟩ := equity_res_eq env1 env2 kA iA hA hres
        "SP500" "^GSPC" (by decide) hk
      simp [equityEntry, hl, hh, hy]
  · unfold cryptoList
    refine forall₂_map_pair _ _ _ cryptoIds ?_
    intro c hc
    refine ⟨rfl, fun hk => ?_⟩
    obtain ⟨hh, hy⟩ := coin_res_eq env1 env2 kA iA hA hres c hc hk
    simp [cryptoEntry, hh, hy]

/-- Environments for the C4 witness: identical, except that in the
second one every resolution of bitcoin fails. -/
def envIso1 : FetchEnv :=
  { latest := fun _ => some 100
    hist := fun _ _ => none
    ytd_ref := fun _ => none
    coin_hist := fun _ _ => some 50
    coin_ytd := fun _ => some 40
    cg_price := Except.ok (fun _ => none) }

/-- envIso1 with the historical and YTD resolutions of bitcoin failing. -/
def envIso2 : FetchEnv :=
  { envIso1 with
    coin_hist := fun c _ => if c = "bitcoin" then none else some 50
    coin_ytd := fun c => if c = "bitcoin" then none else some 40 }

/-- C4 witness: the USDZAR equity entry is unchanged when every
historical and YTD resolution of bitcoin fails. -/
theorem fetch_market_data_fault_isolation_witness :
    getMetrics ((fetch_market_data envIso1).getD []) "USDZAR"
      = getMetrics ((fetch_market_data envIso2).getD []) "USDZAR" :=
  fetch_market_data_fault_isolation envIso1 envIso2 "BTCZAR" "USDZAR"
    (InstrumentId.coin "bitcoin") (InstrumentId.equity "ZAR=X")
    (by decide) (by decide) (by decide)
    rfl rfl
    ⟨rfl, rfl,
      fun c hc => by
        funext d
        show some 50 = if c = "bitcoin" then none else some 50
        rw [if_neg hc],
      fun c hc => by
        show some 40 = if c = "bitcoin" then none else some 40
        rw [if_neg hc]⟩
    ((fetch_market_data envIso1).getD [])
    ((fetch_market_data envIso2).getD [])
    (by decide) (by decide)

end CryptoReporter
